import Mathlib

/-!
Verification development for the Lumina smart-lamp firmware core
(state machine manager, credential store, command protocol, OTA update
state).  Each definition is a shallow embedding of the corresponding
C++ source in `src/`; machine bytes are `Nat` values reduced `% 256`
where the source stores into `uint8_t` slots.
-/

namespace Lumina

/-! ## Credential store (Config.h memory map, LuminaStateManager.h) -/

/-- Numeric value of `EEPROM_MAGIC` (0xA5) from Config.h. -/
def EEPROM_MAGIC : Nat := 165

/-- Address of the magic/sentinel byte (`ADDR_MAGIC`). -/
def ADDR_MAGIC : Nat := 0

/-- Address of the SSID length byte (`ADDR_SSID_LEN`). -/
def ADDR_SSID_LEN : Nat := 1

/-- Start address of the SSID slot (`ADDR_SSID`). -/
def ADDR_SSID : Nat := 2

/-- Address of the password length byte (`ADDR_PASS_LEN`). -/
def ADDR_PASS_LEN : Nat := 34

/-- Start address of the password slot (`ADDR_PASS`). -/
def ADDR_PASS : Nat := 35

/-- Model of the EEPROM byte buffer: a byte value for every address. -/
def Store : Type := Nat → Nat

/-- Model of `EEPROM.write(a, v)`: the stored value is the byte `v % 256`. -/
def writeByte (s : Store) (a v : Nat) : Store :=
  fun x => if x = a then v % 256 else s x

/-- Apply a sequence of `EEPROM.write` calls in order. -/
def writeList (s : Store) (ws : List (Nat × Nat)) : Store :=
  ws.foldl (fun t p => writeByte t p.1 p.2) s

/-- Write trace of the loop `for i: EEPROM.write(base + i, field[i])`. -/
def fieldWrites (base : Nat) : List Nat → List (Nat × Nat)
  | [] => []
  | b :: rest => (base, b) :: fieldWrites (base + 1) rest

/-- Sequence of `EEPROM.write` calls performed by
`LuminaStateManager::saveCredentials` once the length guard has passed,
in source order: the magic byte is written first, then the SSID length
and bytes, then the password length and bytes. -/
def saveTrace (ssid pass : List Nat) : List (Nat × Nat) :=
  (ADDR_MAGIC, EEPROM_MAGIC) :: (ADDR_SSID_LEN, ssid.length) ::
    (fieldWrites ADDR_SSID ssid ++
      (ADDR_PASS_LEN, pass.length) :: fieldWrites ADDR_PASS pass)

/-- Model of `LuminaStateManager::saveCredentials`.  `commitOk` is the
result the external `EEPROM.commit()` would report.  Returns the
success flag together with the resulting EEPROM buffer: on a length
violation nothing is written and `false` is returned; otherwise the
buffer receives the writes of `saveTrace` and the flag is the commit
result. -/
def saveCredentials (commitOk : Bool) (s : Store) (ssid pass : List Nat) :
    Bool × Store :=
  if ssid.length > 32 ∨ pass.length > 64 then (false, s)
  else (commitOk, writeList s (saveTrace ssid pass))

/-- Model of `LuminaStateManager::loadCredentials`: `none` models the
`false` return (no valid credentials), `some (ssid, pass)` the decoded
fields. -/
def loadCredentials (s : Store) : Option (List Nat × List Nat) :=
  if s ADDR_MAGIC ≠ EEPROM_MAGIC then none
  else
    let ssidLen := s ADDR_SSID_LEN
    if ssidLen > 32 then none
    else
      let ssid := (List.range ssidLen).map (fun i => s (ADDR_SSID + i))
      let passLen := s ADDR_PASS_LEN
      if passLen > 64 then none
      else some (ssid, (List.range passLen).map (fun i => s (ADDR_PASS + i)))

/-- Model of `LuminaStateManager::clearCredentials`: writes `0x00` over
the magic byte and commits. -/
def clearCredentials (s : Store) : Store :=
  writeByte s ADDR_MAGIC 0

/-! ### Write-trace lemmas -/

theorem writeByte_same (s : Store) (a v : Nat) : writeByte s a v a = v % 256 := by
  simp [writeByte]

theorem writeByte_other (s : Store) (a v x : Nat) (h : x ≠ a) :
    writeByte s a v x = s x := by
  simp [writeByte, h]

theorem writeList_untouched (ws : List (Nat × Nat)) (a : Nat)
    (h : ∀ p ∈ ws, p.1 ≠ a) : ∀ s : Store, writeList s ws a = s a := by
  induction ws with
  | nil => intro s; rfl
  | cons w t ih =>
      intro s
      have hw : w.1 ≠ a := h w (List.mem_cons_self w t)
      have ht : ∀ p ∈ t, p.1 ≠ a := fun p hp => h p (List.mem_cons_of_mem w hp)
      have : writeList s (w :: t) a = writeList (writeByte s w.1 w.2) t a := rfl
      rw [this, ih ht]
      exact writeByte_other s w.1 w.2 a (fun hx => hw hx.symm)

theorem fieldWrites_mem_addr {base : Nat} {l : List Nat} {p : Nat × Nat}
    (h : p ∈ fieldWrites base l) : base ≤ p.1 ∧ p.1 < base + l.length := by
  induction l generalizing base with
  | nil => simp [fieldWrites] at h
  | cons b rest ih =>
      simp only [fieldWrites, List.mem_cons] at h
      rcases h with h | h
      · subst h; simp
      · have := ih h
        simp only [List.length_cons]
        omega

theorem writeList_fieldWrites_get (l : List Nat) :
    ∀ (s : Store) (base i : Nat), i < l.length → (∀ b ∈ l, b < 256) →
    writeList s (fieldWrites base l) (base + i) = l.getD i 0 := by
  induction l with
  | nil => intro s base i hi; simp at hi
  | cons b rest ih =>
      intro s base i hi hb
      cases i with
      | zero =>
          have hnot : ∀ p ∈ fieldWrites (base + 1) rest, p.1 ≠ base + 0 := by
            intro p hp
            have := fieldWrites_mem_addr hp
            omega
          have : writeList s (fieldWrites base (b :: rest)) (base + 0)
              = writeByte s base b (base + 0) := by
            show writeList (writeByte s base b) (fieldWrites (base + 1) rest) (base + 0)
              = writeByte s base b (base + 0)
            exact writeList_untouched _ _ hnot _
          rw [this]
          have hb0 : b < 256 := hb b (List.mem_cons_self b rest)
          simp [writeByte, Nat.mod_eq_of_lt hb0]
      | succ j =>
          have hj : j < rest.length := by simpa using hi
          have hbr : ∀ x ∈ rest, x < 256 := fun x hx => hb x (List.mem_cons_of_mem b hx)
          have step : writeList s (fieldWrites base (b :: rest)) (base + (j + 1))
              = writeList (writeByte s base b) (fieldWrites (base + 1) rest)
                  ((base + 1) + j) := by
            have : base + (j + 1) = (base + 1) + j := by omega
            rw [this]; rfl
          rw [step, ih (writeByte s base b) (base + 1) j hj hbr]
          rfl

theorem getD_range_map (l : List Nat) :
    (List.range l.length).map (fun i => l.getD i 0) = l := by
  induction l with
  | nil => simp
  | cons b rest ih =>
      have : List.range (rest.length + 1) = 0 :: (List.range rest.length).map Nat.succ :=
        List.range_succ_eq_map rest.length
      simp only [List.length_cons, this, List.map_cons, List.map_map]
      have hcomp : ((fun i => (b :: rest).getD i 0) ∘ Nat.succ) = fun i => rest.getD i 0 := by
        funext i; rfl
      rw [hcomp, ih]
      rfl

theorem writeList_cons (s : Store) (w : Nat × Nat) (t : List (Nat × Nat)) :
    writeList s (w :: t) = writeList (writeByte s w.1 w.2) t := rfl

theorem writeList_append (s : Store) (l₁ l₂ : List (Nat × Nat)) :
    writeList s (l₁ ++ l₂) = writeList (writeList s l₁) l₂ :=
  List.foldl_append _ _ _ _

/-! ### Contents of the EEPROM buffer after a successful save -/

theorem saveStore_magic (s : Store) (ssid pass : List Nat) :
    writeList s (saveTrace ssid pass) ADDR_MAGIC = EEPROM_MAGIC := by
  rw [saveTrace, writeList_cons]
  have h : ∀ p ∈ ((ADDR_SSID_LEN, ssid.length) ::
      (fieldWrites ADDR_SSID ssid ++
        (ADDR_PASS_LEN, pass.length) :: fieldWrites ADDR_PASS pass)),
      p.1 ≠ ADDR_MAGIC := by
    intro p hp
    simp only [List.mem_cons, List.mem_append] at hp
    rcases hp with h | h | h | h
    · subst h; simp [ADDR_SSID_LEN, ADDR_MAGIC]
    · have := fieldWrites_mem_addr h
      simp only [ADDR_SSID] at this
      simp [ADDR_MAGIC]; omega
    · subst h; simp [ADDR_PASS_LEN, ADDR_MAGIC]
    · have := fieldWrites_mem_addr h
      simp only [ADDR_PASS] at this
      simp [ADDR_MAGIC]; omega
  rw [writeList_untouched _ _ h]
  simp [writeByte, EEPROM_MAGIC]

theorem saveStore_ssidLen (s : Store) (ssid pass : List Nat)
    (hs : ssid.length ≤ 32) :
    writeList s (saveTrace ssid pass) ADDR_SSID_LEN = ssid.length := by
  rw [saveTrace, writeList_cons, writeList_cons]
  have h : ∀ p ∈ (fieldWrites ADDR_SSID ssid ++
      (ADDR_PASS_LEN, pass.length) :: fieldWrites ADDR_PASS pass),
      p.1 ≠ ADDR_SSID_LEN := by
    intro p hp
    simp only [List.mem_cons, List.mem_append] at hp
    rcases hp with h | h | h
    · have := fieldWrites_mem_addr h
      simp only [ADDR_SSID] at this
      simp [ADDR_SSID_LEN]; omega
    · subst h; simp [ADDR_PASS_LEN, ADDR_SSID_LEN]
    · have := fieldWrites_mem_addr h
      simp only [ADDR_PASS] at this
      simp [ADDR_SSID_LEN]; omega
  rw [writeList_untouched _ _ h]
  have : ssid.length < 256 := by omega
  simp [writeByte, ADDR_SSID_LEN, ADDR_MAGIC, Nat.mod_eq_of_lt this]

theorem saveStore_ssid (s : Store) (ssid pass : List Nat) (i : Nat)
    (hi : i < ssid.length) (hs : ssid.length ≤ 32)
    (hb : ∀ b ∈ ssid, b < 256) :
    writeList s (saveTrace ssid pass) (ADDR_SSID + i) = ssid.getD i 0 := by
  rw [saveTrace, writeList_cons, writeList_cons]
  rw [show (fieldWrites ADDR_SSID ssid ++
      (ADDR_PASS_LEN, pass.length) :: fieldWrites ADDR_PASS pass)
      = fieldWrites ADDR_SSID ssid ++
        ((ADDR_PASS_LEN, pass.length) :: fieldWrites ADDR_PASS pass) from rfl]
  rw [writeList_append]
  have h : ∀ p ∈ ((ADDR_PASS_LEN, pass.length) :: fieldWrites ADDR_PASS pass),
      p.1 ≠ ADDR_SSID + i := by
    intro p hp
    simp only [List.mem_cons] at hp
    rcases hp with h | h
    · subst h; simp [ADDR_PASS_LEN, ADDR_SSID]; omega
    · have := fieldWrites_mem_addr h
      simp only [ADDR_PASS] at this
      simp [ADDR_SSID]; omega
  rw [writeList_untouched _ _ h]
  exact writeList_fieldWrites_get ssid _ ADDR_SSID i hi hb

theorem saveStore_passLen (s : Store) (ssid pass : List Nat)
    (hp : pass.length ≤ 64) :
    writeList s (saveTrace ssid pass) ADDR_PASS_LEN = pass.length := by
  rw [saveTrace, writeList_cons, writeList_cons, writeList_append,
    writeList_cons]
  have h : ∀ p ∈ fieldWrites ADDR_PASS pass, p.1 ≠ ADDR_PASS_LEN := by
    intro p hmem
    have := fieldWrites_mem_addr hmem
    simp only [ADDR_PASS] at this
    simp [ADDR_PASS_LEN]; omega
  rw [writeList_untouched _ _ h]
  have : pass.length < 256 := by omega
  simp [writeByte, Nat.mod_eq_of_lt this]

theorem saveStore_pass (s : Store) (ssid pass : List Nat) (i : Nat)
    (hi : i < pass.length) (hb : ∀ b ∈ pass, b < 256) :
    writeList s (saveTrace ssid pass) (ADDR_PASS + i) = pass.getD i 0 := by
  rw [saveTrace, writeList_cons, writeList_cons, writeList_append,
    writeList_cons]
  exact writeList_fieldWrites_get pass _ ADDR_PASS i hi hb

/-! ## Claims C2–C5: credential store -/

/-- Property claimed by C2 of a save's write trace: the sentinel write
is the last write, strictly after every field write. -/
def sentinelWrittenLast (tr : List (Nat × Nat)) : Prop :=
  tr.getLast? = some (ADDR_MAGIC, EEPROM_MAGIC) ∧
    ∀ p ∈ tr.dropLast, p.1 ≠ ADDR_MAGIC

instance (tr : List (Nat × Nat)) : Decidable (sentinelWrittenLast tr) := by
  unfold sentinelWrittenLast; infer_instance

/-- C2 (counterexample): for SSID "MyNet" and password "secret123" —
both within bounds — the write trace of `saveCredentials` does NOT put
the sentinel last: the magic byte is the very first byte written, before
any field byte, so the claim as stated is false on the code. -/
theorem c2_sentinel_not_last :
    ¬ sentinelWrittenLast
      (saveTrace [77, 121, 78, 101, 116]
        [115, 101, 99, 114, 101, 116, 49, 50, 51]) := by
  decide

/-- C2 (amended): for every SSID of at most 32 bytes and password of at
most 64 bytes, `saveCredentials` writes the validity sentinel FIRST —
the head of the write trace is the magic byte — then writes the length
byte and bytes of both fields (every later write lands in the field
region, addresses 1 through 34 + password length), all before the single
commit; the sentinel value still survives the field writes in the
resulting buffer. -/
theorem c2_sentinel_first (s : Store) (ssid pass : List Nat)
    (hs : ssid.length ≤ 32) (hp : pass.length ≤ 64) :
    (saveTrace ssid pass).head? = some (ADDR_MAGIC, EEPROM_MAGIC) ∧
    (∀ q ∈ (saveTrace ssid pass).tail,
        1 ≤ q.1 ∧ q.1 ≤ ADDR_PASS_LEN + pass.length) ∧
    writeList s (saveTrace ssid pass) ADDR_MAGIC = EEPROM_MAGIC := by
  refine ⟨rfl, ?_, saveStore_magic s ssid pass⟩
  intro q hq
  simp only [saveTrace, List.tail_cons, List.mem_cons, List.mem_append] at hq
  rcases hq with h | h | h | h
  · subst h; simp only [ADDR_SSID_LEN, ADDR_PASS_LEN]; omega
  · have := fieldWrites_mem_addr h
    simp only [ADDR_SSID] at this
    simp only [ADDR_PASS_LEN]
    omega
  · subst h; simp only [ADDR_PASS_LEN]; omega
  · have := fieldWrites_mem_addr h
    simp only [ADDR_PASS] at this
    simp only [ADDR_PASS_LEN]
    omega

/-- Witness for `c2_sentinel_first` at SSID "MyNet", password
"secret123" and the all-zero store. -/
theorem c2_sentinel_first_witness :
    (saveTrace [77, 121, 78, 101, 116]
        [115, 101, 99, 114, 101, 116, 49, 50, 51]).head?
      = some (ADDR_MAGIC, EEPROM_MAGIC) ∧
    writeList (fun _ => 0)
      (saveTrace [77, 121, 78, 101, 116]
        [115, 101, 99, 114, 101, 116, 49, 50, 51]) ADDR_MAGIC
      = EEPROM_MAGIC := by
  have h := c2_sentinel_first (fun _ => 0) [77, 121, 78, 101, 116]
    [115, 101, 99, 114, 101, 116, 49, 50, 51] (by decide) (by decide)
  exact ⟨h.1, h.2.2⟩

/-- C3: for every SSID of at most 32 bytes and password of at most 64
bytes (each entry a byte value), if `saveCredentials` succeeds — the
commit reports success — then a subsequent `loadCredentials` succeeds
and returns exactly that SSID and password. -/
theorem c3_save_load_roundtrip (s : Store) (ssid pass : List Nat)
    (hs : ssid.length ≤ 32) (hp : pass.length ≤ 64)
    (hbs : ∀ b ∈ ssid, b < 256) (hbp : ∀ b ∈ pass, b < 256) :
    saveCredentials true s ssid pass
      = (true, writeList s (saveTrace ssid pass)) ∧
    loadCredentials (writeList s (saveTrace ssid pass))
      = some (ssid, pass) := by
  constructor
  · rw [saveCredentials, if_neg (by omega)]
  · rw [loadCredentials]
    rw [if_neg (by rw [saveStore_magic]; simp)]
    simp only [saveStore_ssidLen s ssid pass hs,
      saveStore_passLen s ssid pass hp]
    rw [if_neg (by omega), if_neg (by omega)]
    have hssid : (List.range ssid.length).map
        (fun i => writeList s (saveTrace ssid pass) (ADDR_SSID + i)) = ssid := by
      have : ∀ i ∈ List.range ssid.length,
          writeList s (saveTrace ssid pass) (ADDR_SSID + i) = ssid.getD i 0 := by
        intro i hi
        exact saveStore_ssid s ssid pass i (List.mem_range.mp hi) hs hbs
      rw [List.map_congr_left this, getD_range_map]
    have hpass : (List.range pass.length).map
        (fun i => writeList s (saveTrace ssid pass) (ADDR_PASS + i)) = pass := by
      have : ∀ i ∈ List.range pass.length,
          writeList s (saveTrace ssid pass) (ADDR_PASS + i) = pass.getD i 0 := by
        intro i hi
        exact saveStore_pass s ssid pass i (List.mem_range.mp hi) hbp
      rw [List.map_congr_left this, getD_range_map]
    rw [hssid, hpass]

/-- Witness for `c3_save_load_roundtrip` with SSID "MyNet" and password
"secret123" on the all-zero store. -/
theorem c3_save_load_roundtrip_witness :
    loadCredentials
      (writeList (fun _ => 0)
        (saveTrace [77, 121, 78, 101, 116]
          [115, 101, 99, 114, 101, 116, 49, 50, 51]))
      = some ([77, 121, 78, 101, 116],
              [115, 101, 99, 114, 101, 116, 49, 50, 51]) :=
  (c3_save_load_roundtrip (fun _ => 0) [77, 121, 78, 101, 116]
    [115, 101, 99, 114, 101, 116, 49, 50, 51]
    (by decide) (by decide) (by decide) (by decide)).2

/-- C4: for every SSID longer than 32 bytes or password longer than 64
bytes, `saveCredentials` returns failure and the store it returns is
exactly the store it was given — no write is performed, so every stored
byte (sentinel, lengths and field bytes) is unchanged. -/
theorem c4_save_rejects_long (commitOk : Bool) (s : Store)
    (ssid pass : List Nat)
    (h : ssid.length > 32 ∨ pass.length > 64) :
    saveCredentials commitOk s ssid pass = (false, s) := by
  rw [saveCredentials, if_pos h]

/-- Witness for `c4_save_rejects_long` with a concrete 33-byte SSID. -/
theorem c4_save_rejects_long_witness :
    saveCredentials true (fun _ => 0) (List.replicate 33 65) [115]
      = (false, fun _ => 0) :=
  c4_save_rejects_long true (fun _ => 0) (List.replicate 33 65) [115]
    (Or.inl (by decide))

/-- C5: for every prior storage contents, after `clearCredentials` a
subsequent `loadCredentials` reports absence, and `clearCredentials`
modifies only the sentinel byte: every other address holds exactly the
byte it held before. -/
theorem c5_clear_then_load_absent (s : Store) :
    loadCredentials (clearCredentials s) = none ∧
    ∀ a : Nat, a ≠ ADDR_MAGIC → clearCredentials s a = s a := by
  constructor
  · rw [loadCredentials, if_pos]
    show writeByte s ADDR_MAGIC 0 ADDR_MAGIC ≠ EEPROM_MAGIC
    rw [writeByte_same]
    simp [EEPROM_MAGIC]
  · intro a ha
    exact writeByte_other s ADDR_MAGIC 0 a ha

/-- Witness for `c5_clear_then_load_absent` on a store previously
holding valid credentials. -/
theorem c5_clear_then_load_absent_witness :
    loadCredentials
      (clearCredentials
        (writeList (fun _ => 0) (saveTrace [77] [115]))) = none ∧
    clearCredentials
      (writeList (fun _ => 0) (saveTrace [77] [115])) ADDR_SSID_LEN
      = writeList (fun _ => 0) (saveTrace [77] [115]) ADDR_SSID_LEN := by
  have h := c5_clear_then_load_absent
    (writeList (fun _ => 0) (saveTrace [77] [115]))
  exact ⟨h.1, h.2 ADDR_SSID_LEN (by decide)⟩

/-! ## State machine manager (States.h, LuminaStateManager.h) -/

/-- Operating modes of the device (the four `LuminaState` variants). -/
inductive Mode where
  | searching
  | provisioning
  | connected
  | updating
deriving DecidableEq

/-- Environment facts the enter hooks consult: whether
`loadCredentials` succeeds and whether `WiFi.status() == WL_CONNECTED`. -/
structure Env where
  hasCredentials : Bool
  wifiConnected : Bool
deriving DecidableEq

/-- Transition request a mode's `onEnter` hook issues, from the source:
`SearchingState::onEnter` requests Provisioning when no credentials
load; `UpdatingState::onEnter` requests Searching when WiFi is down;
`ProvisioningState::onEnter` and `ConnectedState::onEnter` request
nothing. -/
def enterRequest (m : Mode) (env : Env) : Option Mode :=
  match m with
  | .searching => if env.hasCredentials then none else some .provisioning
  | .updating => if env.wifiConnected then none else some .searching
  | _ => none

/-- Observable events of the manager's transition protocol: installing
a state as `currentState`, beginning/finishing its `onEnter`, running
its `onExit`, and `delete`-ing it. -/
inductive MEvent where
  | install (m : Mode)
  | enterBegin (m : Mode)
  | enterEnd (m : Mode)
  | exitRun (m : Mode)
  | destroy (m : Mode)
deriving DecidableEq

/-- Model of `LuminaStateManager::transitionTo(newState)` for a present
argument, with the C++ control flow embedded: exit and delete the
current state, install the new one, run its `onEnter`; when `onEnter`
itself calls `transitionTo`, the source executes that nested call
immediately and recursively, so its whole event sequence lands between
`enterBegin` and `enterEnd` of the requesting state.  `fuel` bounds the
recursion depth (enter-request chains in the source have length at most
two).  Returns the final `currentState` and the event trace. -/
def transRun (fuel : Nat) (cur : Option Mode) (tgt : Mode) (env : Env) :
    Option Mode × List MEvent :=
  match fuel with
  | 0 => (cur, [])
  | f + 1 =>
    let pre : List MEvent := match cur with
      | some c => [.exitRun c, .destroy c]
      | none => []
    match enterRequest tgt env with
    | none => (some tgt, pre ++ [.install tgt, .enterBegin tgt, .enterEnd tgt])
    | some nxt =>
      let r := transRun f (some tgt) nxt env
      (r.1, pre ++ [.install tgt, .enterBegin tgt] ++ r.2 ++ [.enterEnd tgt])

/-- Model of a call to `LuminaStateManager::transitionTo` including the
null-argument guard: an absent argument is refused — no event happens,
`currentState` stays as it was, and the error flag (third component) is
set; a present argument runs the transition protocol. -/
def transitionToCall (fuel : Nat) (cur : Option Mode) (arg : Option Mode)
    (env : Env) : Option Mode × List MEvent × Bool :=
  match arg with
  | none => (cur, [], true)
  | some tgt =>
    let r := transRun fuel cur tgt env
    (r.1, r.2, false)

/-! ## Claim C1: re-entrant transition requests -/

/-- C1 (the code evaluated at the failing input): entering Searching
with no stored credentials — the initial transition `begin()` performs
on a fresh device.  `SearchingState::onEnter` requests Provisioning and
the manager executes that request immediately and recursively: the
resulting trace shows the Searching state exited and destroyed strictly
BEFORE its own `enterBegin`/`enterEnd` bracket closes, i.e. the nested
transition runs against the in-flight state instead of being captured
in a deferred-transition queue, refuting the claimed single-slot
deferral. -/
theorem c1_reentrant_transition_is_nested :
    (transRun 4 none .searching ⟨false, false⟩).2
      = [.install .searching, .enterBegin .searching,
         .exitRun .searching, .destroy .searching,
         .install .provisioning, .enterBegin .provisioning,
         .enterEnd .provisioning, .enterEnd .searching] ∧
    (transRun 4 none .searching ⟨false, false⟩).2.indexOf
        (.destroy .searching)
      < (transRun 4 none .searching ⟨false, false⟩).2.indexOf
        (.enterEnd .searching) := by
  decide

/-! ## Claim C7: transition to an absent state -/

/-- C7: for every current state, fuel and environment, calling
`transitionTo` with an absent argument is refused: the current state is
returned unchanged, the event trace is empty (no exit hook runs and no
state is released), and the error flag is signaled. -/
theorem c7_null_transition_refused (fuel : Nat) (cur : Option Mode)
    (env : Env) :
    transitionToCall fuel cur none env = (cur, [], true) := rfl

/-! ## Claim C6: updating-state error callback -/

/-- Actions the OTA `onError` lambda performs on the device: filling
the ring red (`show`n), clearing it, and requesting a manager
transition. -/
inductive UAction where
  | fillRed
  | clearLeds
  | transitionTo (m : Mode)
deriving DecidableEq

/-- Classification of the OTA error cause, from the `switch (error)` in
`UpdatingState::setupOTA`: 0 auth, 1 begin, 2 connect, 3 receive,
4 end, anything else unknown. -/
def classifyOtaError (e : Nat) : String :=
  if e = 0 then "Auth Failed"
  else if e = 1 then "Begin Failed"
  else if e = 2 then "Connect Failed"
  else if e = 3 then "Receive Failed"
  else if e = 4 then "End Failed"
  else "Unknown"

/-- Model of the `ArduinoOTA.onError` lambda of `UpdatingState`: it
classifies the cause, flashes the ring red three times (fill, show,
clear, show per iteration), and then calls
`transitionTo(createConnectedState(...))`.  The `previousState` field
of `UpdatingState` is passed in to record that the lambda never reads
it: the transition target is fixed. -/
def otaOnError (previousState : Option Mode) (e : Nat) :
    String × List UAction :=
  (classifyOtaError e,
    (List.replicate 3 [UAction.fillRed, UAction.clearLeds]).flatten
      ++ [UAction.transitionTo Mode.connected])

theorem otaOnError_trace (previousState : Option Mode) (e : Nat) :
    (otaOnError previousState e).2
      = [.fillRed, .clearLeds, .fillRed, .clearLeds, .fillRed, .clearLeds,
         .transitionTo .connected] := rfl

/-- C6: whenever the update-error callback fires — with any cause code
and any mode preceding Updating — the final action is a transition to
Connected, every transition it performs targets Connected (never
Searching or Provisioning), and every action before the transition is
part of the red error-flash sequence. -/
theorem c6_ota_error_rolls_back_to_connected (previousState : Option Mode)
    (e : Nat) :
    (otaOnError previousState e).2.getLast?
      = some (.transitionTo .connected) ∧
    (∀ m : Mode, UAction.transitionTo m ∈ (otaOnError previousState e).2 →
      m = .connected) ∧
    (∀ a ∈ (otaOnError previousState e).2.dropLast,
      a = .fillRed ∨ a = .clearLeds) := by
  rw [otaOnError_trace]
  refine ⟨rfl, ?_, ?_⟩
  · intro m hm
    simp only [List.mem_cons, List.not_mem_nil, or_false] at hm
    rcases hm with h | h | h | h | h | h | h <;> first
      | (cases h; rfl)
      | (exact absurd h (by simp))
  · intro a ha
    simp only [List.dropLast, List.mem_cons, List.not_mem_nil, or_false] at ha
    rcases ha with h | h | h | h | h | h <;> simp [h]

/-- Witness for `c6_ota_error_rolls_back_to_connected` at cause code 1
(begin failure) with Searching as the preceding mode; the cause is
classified as a begin failure and the last action is still the
transition to Connected. -/
theorem c6_ota_error_rolls_back_to_connected_witness :
    (otaOnError (some .searching) 1).2.getLast?
      = some (.transitionTo .connected) ∧
    classifyOtaError 1 = "Begin Failed" :=
  ⟨(c6_ota_error_rolls_back_to_connected (some .searching) 1).1, rfl⟩

/-- Witness for `c7_null_transition_refused` with Connected active. -/
theorem c7_null_transition_refused_witness :
    transitionToCall 3 (some .connected) none ⟨true, true⟩
      = (some .connected, [], true) :=
  c7_null_transition_refused 3 (some .connected) ⟨true, true⟩

/-! ## Heartbeat packet (ConnectedState.h) -/

/-- Little-endian byte expansion of a 4-byte value, as the `memcpy`
calls in `sendHeartbeat` lay a `float` or `uint32_t` out in the packet
on the (little-endian) ESP8266. -/
def le32 (v : Nat) : List Nat :=
  [v % 256, v / 256 % 256, v / 65536 % 256, v / 16777216 % 256]

/-- Largest exponent `e` in the normal binary32 range with
`2 ^ e ≤ num / den`, computed on the fraction with integer arithmetic
only. -/
def floatExpSearch (num den : Nat) : Int :=
  (List.range 254).foldl
    (fun acc n =>
      let e : Int := (n : Int) - 126
      if (if 0 ≤ e then 2 ^ e.toNat * den ≤ num else den ≤ num * 2 ^ (-e).toNat)
      then e else acc) (-126)

/-- Round the nonnegative fraction `num / den` to the nearest integer,
ties to even. -/
def rndNEFrac (num den : Nat) : Nat :=
  let n := num / den
  let r2 := 2 * (num % den)
  if den < r2 then n + 1
  else if r2 < den then n
  else if n % 2 = 0 then n else n + 1

/-- Bits of the IEEE-754 binary32 (single-precision, round to nearest,
ties to even) representation of the positive rational `num / den`.
Models the in-memory `float` value whose four bytes `sendHeartbeat`
copies into the packet — the number-to-bits conversion itself is
performed by the platform, outside the repository's code. -/
def float32bitsFrac (num den : Nat) : Nat :=
  if num = 0 then 0
  else
    let e := floatExpSearch num den
    let sh : Int := 23 - e
    let nd := if 0 ≤ sh then (num * 2 ^ sh.toNat, den)
      else (num, den * 2 ^ (-sh).toNat)
    let m := rndNEFrac nd.1 nd.2
    let em := if m = 2 ^ 24 then (e + 1, (2 : Nat) ^ 23) else (e, m)
    (em.1 + 127).toNat * 2 ^ 23 + (em.2 - 2 ^ 23)

/-- Little-endian IEEE-754 binary32 encoding of `num / den`. -/
def ieee754SingleLE (num den : Nat) : List Nat :=
  le32 (float32bitsFrac num den)

/-- Model of the packet `ConnectedState::sendHeartbeat` broadcasts:
`packet[0] = STATUS_HEARTBEAT` (0x10), `packet[1] = STATE_CONNECTED`
(0x03), `packet[2]` the battery percent (a `uint8_t`), `packet[3]` the
RSSI shifted by 128 and truncated to a byte, `packet[4..7]` the float
voltage bytes, `packet[8..11]` the `uint32_t` free-heap bytes,
`packet[12]` the strategy-name length, then the name bytes; exactly
`13 + nameLen` bytes are sent. -/
def heartbeatPacket (batteryPct : Nat) (rssi : Int) (voltageBits heap : Nat)
    (name : List Nat) : List Nat :=
  [16, 3, batteryPct % 256, ((rssi + 128) % 256).toNat]
    ++ le32 voltageBits ++ le32 heap ++ [name.length % 256] ++ name

/-- C8: for every heartbeat — any battery percent (a byte), RSSI,
voltage bit pattern, free-heap word and strategy name — the packet is
exactly `[0x10][modeCode 3][batteryPct][rssi+128][voltage bytes 4..7]
[freeHeap bytes 8..11][nameLen at 12][name bytes from 13]`: byte 2 is
the battery percent, bytes 4..7 are the voltage's encoding, byte 12 is
the name length and the bytes from 13 on are the name. -/
theorem c8_heartbeat_layout (batteryPct : Nat) (rssi : Int)
    (voltageBits heap : Nat) (name : List Nat)
    (hb : batteryPct < 256) (hn : name.length < 256) :
    heartbeatPacket batteryPct rssi voltageBits heap name
      = [16, 3, batteryPct, ((rssi + 128) % 256).toNat]
          ++ le32 voltageBits ++ le32 heap ++ [name.length] ++ name ∧
    (heartbeatPacket batteryPct rssi voltageBits heap name).getD 2 0
      = batteryPct ∧
    ((heartbeatPacket batteryPct rssi voltageBits heap name).drop 4).take 4
      = le32 voltageBits ∧
    (heartbeatPacket batteryPct rssi voltageBits heap name).getD 12 0
      = name.length ∧
    (heartbeatPacket batteryPct rssi voltageBits heap name).drop 13
      = name := by
  refine ⟨?_, ?_, ?_, ?_, ?_⟩ <;>
    simp [heartbeatPacket, le32, Nat.mod_eq_of_lt hb, Nat.mod_eq_of_lt hn]

/-- Witness for `c8_heartbeat_layout` at the claim's concrete scenario:
battery 81 %, voltage 3.9 V, active strategy "Calm" (and RSSI −60 dBm,
heap 30000): byte 2 is 81, bytes 4..7 are the IEEE-754 encoding of
3.9f — `[0x9A, 0x99, 0x79, 0x40]` — byte 12 is 4 and bytes 13..16 are
"Calm". -/
theorem c8_heartbeat_layout_witness :
    (heartbeatPacket 81 (-60) (float32bitsFrac 39 10) 30000
        [67, 97, 108, 109]).getD 2 0 = 81 ∧
    ((heartbeatPacket 81 (-60) (float32bitsFrac 39 10) 30000
        [67, 97, 108, 109]).drop 4).take 4 = [154, 153, 121, 64] ∧
    ieee754SingleLE 39 10 = [154, 153, 121, 64] ∧
    (heartbeatPacket 81 (-60) (float32bitsFrac 39 10) 30000
        [67, 97, 108, 109]).getD 12 0 = 4 ∧
    (heartbeatPacket 81 (-60) (float32bitsFrac 39 10) 30000
        [67, 97, 108, 109]).drop 13 = [67, 97, 108, 109] := by
  have h := c8_heartbeat_layout 81 (-60) (float32bitsFrac 39 10) 30000
    [67, 97, 108, 109] (by decide) (by decide)
  refine ⟨h.2.1, ?_, by decide, h.2.2.2.1, h.2.2.2.2⟩
  rw [h.2.2.1]
  decide

/-! ## Provision command decoding (ProvisioningState / SearchingState) -/

/-- Model of the `CMD_PROVISION` handler body shared by
`ProvisioningState::handleCommand` and `SearchingState::handleCommand`:
given the payload (the datagram minus the opcode byte), it returns the
decoded `(ssid, password)` — or `none` when a guard drops the packet —
together with the list of payload indices the code actually reads, in
order. -/
def parseProvision (d : List Nat) : Option (List Nat × List Nat) × List Nat :=
  if d.length < 2 then (none, [])
  else if d.getD 0 0 > 32 ∨ d.length < d.getD 0 0 + 2 then (none, [0])
  else if d.getD (1 + d.getD 0 0) 0 > 64 ∨
      d.length < d.getD 0 0 + d.getD (1 + d.getD 0 0) 0 + 2 then
    (none,
      0 :: (List.range (d.getD 0 0)).map (fun i => 1 + i) ++ [1 + d.getD 0 0])
  else
    (some ((List.range (d.getD 0 0)).map (fun i => d.getD (1 + i) 0),
        (List.range (d.getD (1 + d.getD 0 0) 0)).map
          (fun i => d.getD (2 + d.getD 0 0 + i) 0)),
      0 :: (List.range (d.getD 0 0)).map (fun i => 1 + i) ++ [1 + d.getD 0 0]
        ++ (List.range (d.getD (1 + d.getD 0 0) 0)).map
          (fun i => 2 + d.getD 0 0 + i))

/-- Malformedness condition of a provision payload as the claim states
it: undersized payload, declared SSID length over 32, declared password
length over 64, or declared sub-lengths reaching past the payload end. -/
def provisionMalformed (d : List Nat) : Prop :=
  d.length < 2 ∨ d.getD 0 0 > 32 ∨ d.length < d.getD 0 0 + 2 ∨
    d.getD (1 + d.getD 0 0) 0 > 64 ∨
    d.length < d.getD 0 0 + d.getD (1 + d.getD 0 0) 0 + 2

instance (d : List Nat) : Decidable (provisionMalformed d) := by
  unfold provisionMalformed; infer_instance

/-- C9: for every provision payload, every index the handler reads is
inside the payload (no out-of-bounds access, so no fault), and whenever
the payload is undersized or a declared sub-length is over its bound or
would require reading past the end, the handler returns `none` — the
packet is dropped and nothing is saved. -/
theorem c9_provision_bounds_checked (d : List Nat) :
    (∀ i ∈ (parseProvision d).2, i < d.length) ∧
    (provisionMalformed d → (parseProvision d).1 = none) := by
  unfold parseProvision provisionMalformed
  split_ifs with h1 h2 h3
  · exact ⟨by intro i hi; simp at hi, fun _ => rfl⟩
  · refine ⟨?_, fun _ => rfl⟩
    intro i hi
    simp only [List.mem_singleton] at hi
    omega
  · refine ⟨?_, fun _ => rfl⟩
    intro i hi
    simp only [List.cons_append, List.mem_cons, List.mem_append,
      List.mem_singleton, List.mem_map, List.mem_range,
      List.not_mem_nil, or_false] at hi
    rcases hi with h | ⟨j, hj, rfl⟩ | h
    · omega
    · omega
    · omega
  · constructor
    · intro i hi
      simp only [List.cons_append, List.append_assoc, List.mem_cons,
        List.mem_append, List.mem_singleton, List.mem_map,
        List.mem_range, List.not_mem_nil, or_false] at hi
      rcases hi with h | ⟨j, hj, rfl⟩ | h | ⟨j, hj, rfl⟩
      · omega
      · omega
      · omega
      · omega
    · intro hmal
      exfalso
      rcases hmal with h | h | h | h | h <;> omega

/-- Witness for `c9_provision_bounds_checked` on a payload declaring a
33-byte SSID: the handler reads only index 0 and drops the packet. -/
theorem c9_provision_bounds_checked_witness :
    (parseProvision [33, 65]).1 = none ∧
    ∀ i ∈ (parseProvision [33, 65]).2, i < 2 := by
  have h := c9_provision_bounds_checked [33, 65]
  exact ⟨h.2 (by decide), by simpa using h.1⟩

/-! ## Mood command (ConnectedState.h) -/

/-- RGB color triple from Config.h. -/
structure Color where
  r : Nat
  g : Nat
  b : Nat
deriving DecidableEq

/-- Lighting strategies of ConnectedState.h: solid color, calm
breathing, focus, and the three-color party rotation. -/
inductive Strategy where
  | solid (c : Color)
  | calm (c : Color)
  | focus (c : Color)
  | party (c1 c2 c3 : Color)
deriving DecidableEq

/-- Model of the `CMD_SET_MOOD` case of
`ConnectedState::handleCommand`: given the current strategy and the
payload, returns the strategy afterwards and whether the previous
strategy was released (`delete currentStrategy` ran).  An undersized
payload (< 4 bytes) leaves the strategy untouched; otherwise the
previous strategy is deleted and the mood byte selects Calm, Focus,
Party (with default second and third colors `Colors::CONNECTED` and
`Colors::SEARCHING` when fewer than 10 payload bytes arrive) — any
other mood byte installs a solid-color strategy with the supplied
RGB color. -/
def handleSetMood (cur : Strategy) (d : List Nat) : Strategy × Bool :=
  if d.length < 4 then (cur, false)
  else
    let moodType := d.getD 0 0
    let c : Color := ⟨d.getD 1 0, d.getD 2 0, d.getD 3 0⟩
    if moodType = 0 then (.calm c, true)
    else if moodType = 1 then (.focus c, true)
    else if moodType = 2 then
      if 10 ≤ d.length then
        (.party c ⟨d.getD 4 0, d.getD 5 0, d.getD 6 0⟩
          ⟨d.getD 7 0, d.getD 8 0, d.getD 9 0⟩, true)
      else (.party c ⟨0, 255, 0⟩ ⟨0, 50, 255⟩, true)
    else (.solid c, true)

/-- C10: for every current strategy and every set-mood payload of at
least 4 bytes whose mood type byte is outside {0, 1, 2}, the command is
not ignored: the previous strategy is released and a solid-color
strategy with the supplied RGB color becomes the active strategy. -/
theorem c10_unknown_mood_installs_solid (cur : Strategy) (d : List Nat)
    (hlen : 4 ≤ d.length)
    (h0 : d.getD 0 0 ≠ 0) (h1 : d.getD 0 0 ≠ 1) (h2 : d.getD 0 0 ≠ 2) :
    handleSetMood cur d
      = (.solid ⟨d.getD 1 0, d.getD 2 0, d.getD 3 0⟩, true) := by
  rw [handleSetMood, if_neg (by omega)]
  simp only [if_neg h0, if_neg h1, if_neg h2]

/-- Witness for `c10_unknown_mood_installs_solid`: mood type 5 with
RGB(10, 20, 30), starting from the default calm-green strategy. -/
theorem c10_unknown_mood_installs_solid_witness :
    handleSetMood (.calm ⟨0, 255, 0⟩) [5, 10, 20, 30]
      = (.solid ⟨10, 20, 30⟩, true) :=
  c10_unknown_mood_installs_solid (.calm ⟨0, 255, 0⟩) [5, 10, 20, 30]
    (by decide) (by decide) (by decide) (by decide)

end Lumina
